import Mathlib

set_option maxRecDepth 4000

/-!
Verification of the MeetingMirror backend (FastAPI websocket coaching server).

Part 1 models the pure feedback parser `parse_structured_feedback` from
`backend/gemini_coach.py`. Python strings are modelled as `List Char`
(`Str`), with Python's `str.strip`, `str.lower`, `str.split("\n")`,
`str.partition(":")` and the substring test `in` embedded as executable
functions. Python dict entries that may be missing or `None` are modelled
as `Option` (both are indistinguishable through `dict.get`, which is the
only read the source performs).

Part 2 (further below) models the per-meeting session core of
`backend/main.py` as a small-step transition system over the event loop.
-/

/-! ## Python string primitives -/

/-- A Python string, as its sequence of characters. -/
abbrev Str := List Char

/-- Characters stripped by Python `str.strip()` (the ASCII whitespace
the inputs of this program can contain). -/
def pyIsSpace (c : Char) : Bool :=
  c == ' ' || c == '\t' || c == '\n' || c == '\r' || c == '\x0b' || c == '\x0c'

/-- Python `str.strip()`. -/
def pyStrip (s : Str) : Str :=
  ((s.dropWhile pyIsSpace).reverse.dropWhile pyIsSpace).reverse

/-- Python `str.lower()` (ASCII). -/
def pyLower (s : Str) : Str :=
  s.map Char.toLower

/-- Python `s.split("\n")` (keeps empty pieces, never returns `[]`). -/
def splitNl : Str → List Str
  | [] => [[]]
  | c :: cs =>
    match splitNl cs with
    | [] => [[c]]
    | h :: t => if c == '\n' then [] :: h :: t else (c :: h) :: t

/-- `leadsWith pat s` : does `s` start with `pat`? -/
def leadsWith : Str → Str → Bool
  | [], _ => true
  | _ :: _, [] => false
  | p :: ps, c :: cs => p == c && leadsWith ps cs

/-- Python `pat in s` (substring containment). -/
def hasSub (s pat : Str) : Bool :=
  match s with
  | [] => leadsWith pat []
  | _ :: cs => leadsWith pat s || hasSub cs pat

/-- Python `s.partition(":")` restricted to what the source uses:
`some (before, after)` at the first colon, `none` when `":" not in s`. -/
def breakColon : Str → Option (Str × Str)
  | [] => none
  | c :: cs =>
    if c == ':' then some ([], cs)
    else match breakColon cs with
      | none => none
      | some (a, b) => some (c :: a, b)

/-- Shorthand to write a `Str` from a literal. -/
def lit (s : String) : Str := s.data

/-! ## The feedback parser (`gemini_coach.parse_structured_feedback`) -/

/-- `value if value and value.lower() not in ("none", "n/a", "-") else None` —
the normalization applied to optional fields. -/
def normTok (v : Str) : Option Str :=
  if v == [] then none
  else if pyLower v == lit "none" || pyLower v == lit "n/a" || pyLower v == lit "-" then none
  else some v

/-- `"good" if "good" in v or v in ("none", "n/a", "-", "") else value` for the
`pace` field (`v` is the lower-cased value). -/
def paceNorm (value : Str) : Str :=
  if hasSub (pyLower value) (lit "good")
      || pyLower value == lit "none" || pyLower value == lit "n/a"
      || pyLower value == lit "-" || pyLower value == [] then
    lit "good"
  else value

/-- The two values ever stored in `field_map["language_detected"]`. -/
inductive Lang where
  | english | nonEnglish
deriving DecidableEq

/-- The `feedback_type` values assigned by the parser. -/
inductive FType where
  | positive | engagement | otherLanguage | paceVolume | suggestedSentence | fillerWords
deriving DecidableEq

/-- The `field_map` dict built by the line loop. A missing key and a key set
to `None` are both `none` (the source only reads it through `.get`). -/
structure FieldMap where
  fillers : Option Str := none
  fillerBreakdown : Option Str := none
  fillerCount : Option Str := none
  improvedSentence : Option Str := none
  pace : Option Str := none
  volume : Option Str := none
  engagementAlert : Option Str := none
  suggestion : Option Str := none
  languageDetected : Option Lang := none
  nonEnglishMessage : Option Str := none
  nonEnglishDuration : Option Str := none
deriving DecidableEq

/-- The `elif` chain of the line loop, applied to the already normalized
`key` (`key.strip().lower()`) and `value` (`value.strip()`). -/
def applyKV (fm : FieldMap) (key value : Str) : FieldMap :=
  if key == lit "filler words (current)" || key == lit "filler words" then
    { fm with fillers := normTok value }
  else if hasSub key (lit "filler") && hasSub key (lit "breakdown") then
    { fm with fillerBreakdown := normTok value }
  else if hasSub key (lit "filler") && fm.fillers == none then
    { fm with fillers := normTok value }
  else if key == lit "filler count (total)" || key == lit "filler count" then
    { fm with fillerCount := some value }
  else if key == lit "filler breakdown" then
    { fm with fillerBreakdown := normTok value }
  else if key == lit "improved sentence" then
    { fm with improvedSentence := normTok value }
  else if key == lit "pace" then
    { fm with pace := some (paceNorm value) }
  else if key == lit "volume" then
    { fm with volume := some (if hasSub (pyLower value) (lit "low") then lit "low" else lit "good") }
  else if key == lit "engagement alert" then
    { fm with engagementAlert := normTok value }
  else if key == lit "suggestion" then
    { fm with suggestion := if value == [] then none else some value }
  else if key == lit "language" then
    (if hasSub (pyLower value) (lit "non-english") || hasSub (pyLower value) (lit "non english") then
      { fm with languageDetected := some .nonEnglish, nonEnglishMessage := some value }
    else
      { fm with languageDetected := some .english })
  else if hasSub key (lit "non-english") || hasSub key (lit "non_english") then
    { fm with nonEnglishDuration := if value == [] then none else some value }
  else fm

/-- One iteration of `for line in lines`: skip lines without a colon,
otherwise partition at the first colon and run the `elif` chain. -/
def applyLine (fm : FieldMap) (line : Str) : FieldMap :=
  match breakColon line with
  | none => fm
  | some (k, v) => applyKV fm (pyLower (pyStrip k)) (pyStrip v)

/-- The `result` dict returned to the caller. -/
structure ParseResult where
  feedback : Str
  feedbackType : FType := .positive
  improvedSentence : Option Str := none
  fillers : Option Str := none
  fillerBreakdown : Option Str := none
  pace : Option Str := none
  volume : Option Str := none
  engagementAlert : Option Str := none
  suggestion : Option Str := none
  languageDetected : Option Lang := none
  nonEnglishMessage : Option Str := none
deriving DecidableEq

/-- Python truthiness of an optional-string field (`None` and `""` are falsy). -/
def truthyS : Option Str → Bool
  | none => false
  | some v => !(v == [])

/-- The final `if`/`elif` chain assigning `result["feedback_type"]`. -/
def categoryOf (r : ParseResult) : FType :=
  if truthyS r.engagementAlert then .engagement
  else if r.languageDetected == some .nonEnglish then .otherLanguage
  else if (truthyS r.pace && !(r.pace == some (lit "good")))
      || (truthyS r.volume && r.volume == some (lit "low")) then .paceVolume
  else if truthyS r.improvedSentence then .suggestedSentence
  else if truthyS r.fillers then .fillerWords
  else .positive

/-- Copy the `field_map` entries into the result dict (the
`non_english_duration` entry is never copied out, as in the source). -/
def fillResult (raw : Str) (fm : FieldMap) : ParseResult :=
  { feedback := raw
    improvedSentence := fm.improvedSentence
    fillers := fm.fillers
    fillerBreakdown := fm.fillerBreakdown
    pace := fm.pace
    volume := fm.volume
    engagementAlert := fm.engagementAlert
    suggestion := fm.suggestion
    languageDetected := fm.languageDetected
    nonEnglishMessage := fm.nonEnglishMessage }

/-- `gemini_coach.parse_structured_feedback`. -/
def parse_structured_feedback (raw : Str) : ParseResult :=
  if pyStrip raw == [] then { feedback := raw }
  else
    let fm := (splitNl (pyStrip raw)).foldl applyLine {}
    let r := fillResult raw fm
    { r with feedbackType := categoryOf r }

/-- Spec wording, category selection (spec section 4.4 / claim C5): a strict
priority order over the parsed fields, first match wins. A field is present
when it is non-absent; the spec normalizes the empty string to absent, so
present coincides with Python truthiness of the field (`truthyS`). -/
def specPriorityCategory (r : ParseResult) : FType :=
  if truthyS r.engagementAlert then .engagement
  else if r.languageDetected == some .nonEnglish then .otherLanguage
  else if (truthyS r.pace && !(r.pace == some (lit "good")))
      || r.volume == some (lit "low") then .paceVolume
  else if truthyS r.improvedSentence then .suggestedSentence
  else if truthyS r.fillers then .fillerWords
  else .positive

/-- The end-to-end scenario input of claim C4 / spec section 8. -/
def c4Input : Str :=
  lit "Improved Sentence: I will present the results.\nPace: good\nVolume: good\nLanguage: English\nSuggestion: None"

/-- Engagement alert and filler list together, in either line order. -/
def c5InputA : Str := lit "Engagement Alert: check audience\nFiller Words: um, like"

def c5InputB : Str := lit "Filler Words: um, like\nEngagement Alert: check audience"

/-- Inputs for C10: the same two lines in the two possible orders. -/
def c10InputA : Str := lit "Filler Words: None\nFiller Count (Total): 3"

def c10InputB : Str := lit "Filler Count (Total): 3\nFiller Words: None"


/-! ## The session core of `backend/main.py`

One coaching session (one `meeting_id` key of the global dicts) is modelled
as a small-step transition system over the asyncio event loop. Code between
two `await` points runs atomically on the loop, so every atomic block of the
handler coroutine `websocket_coaching` and of the worker coroutine
`_process_coaching_queue` is one transition. Blocking offloads
(`asyncio.to_thread` of the Gemini/Groq calls) and outbound sends are the
suspension points; their results are nondeterministic parameters of the
resume transitions. Different meeting keys never share state in the source
(every access is through the same `meeting_id`), so one key suffices.

The worker keeps a reference to the queue list object it read at its first
run. The dict entry is only ever replaced after `coaching_queue.pop` in the
teardown block, which also pops and cancels the registered worker, and a
cancel-pending coroutine never runs user code again — so for every worker
that can still act, its reference and the dict entry `queueKey` coincide,
and the model lets worker transitions act on `queueKey` directly. -/

/-- Suspension points of `_process_coaching_queue`. `start` is a created
task whose coroutine has not yet entered; `awaitOracle s` is suspended in
`asyncio.to_thread(_process_transcript_sync, ..)` on sentence `s`;
`awaitSend s fb` is suspended broadcasting feedback `fb` for `s`. -/
inductive WSt where
  | start
  | awaitOracle (s : Str)
  | awaitSend (s fb : Str)
  | done
deriving DecidableEq

/-- A worker task: suspension state plus whether `Task.cancel` was called.
A cancel-requested task resumes only by raising `CancelledError` (it becomes
`done` without running any further user code). -/
structure Worker where
  st : WSt
  cancelled : Bool
deriving DecidableEq

/-- Default worker used for out-of-range reads (a done task). -/
def dW : Worker := ⟨.done, false⟩

/-- Suspension points of the handler coroutine `websocket_coaching`:
the receive loop (`loop`), the inline `process_transcript` path, the inline
`audio` path, awaiting a cancelled worker in the `finally` block
(`waitTask`), and terminated (`closed`). -/
inductive HSt where
  | loop
  | ptOracle (t : Str)
  | ptSendFeedback (fb : Str)
  | ptSendFail
  | audioTranscribe (prim : Bool) (data : Str)
  | audioSendHeard (t : Str)
  | audioSendUnavail
  | audioAnalyze (t : Str)
  | audioSendFeedback (fb : Str)
  | waitTask (i : Nat)
  | closed
deriving DecidableEq

/-- Observable events of the worker path: the oracle call for a queued
sentence begins / the feedback broadcast for it completed. -/
inductive Ev where
  | start (s : Str)
  | bcast (s : Str)
deriving DecidableEq

/-- State of one session key. `connsKey`, `bufKey`, `queueKey`, `taskRef`
are the entries of `active_connections`, `meeting_transcript_buffers`,
`coaching_queue`, `coaching_tasks` for this key (`none` = key absent;
the connection set is kept by its size, the task entry by the index of the
worker in the ever-growing arena `workers`). `handlers` are the handler
coroutines that ever connected; `events` is the ghost trace of worker
oracle-start and broadcast events. -/
structure Sys where
  connsKey : Option Nat
  bufKey : Option (List Str)
  queueKey : Option (List Str)
  taskRef : Option Nat
  workers : List Worker
  handlers : List HSt
  events : List Ev
deriving DecidableEq

/-- Server start: no key present, nothing connected. -/
def Sys.init : Sys := ⟨none, none, none, none, [], [], []⟩

def setW (σ : Sys) (i : Nat) (w : Worker) : Sys :=
  { σ with workers := σ.workers.set i w }

def setH (σ : Sys) (h : Nat) (s : HSt) : Sys :=
  { σ with handlers := σ.handlers.set h s }

/-- Connection setup (lines 180-204): add the endpoint to the connection
set, create the transcript buffer entry if absent, enter the receive loop.
(The greeting broadcast touches no session state.) -/
def connectResult (σ : Sys) : Sys :=
  { σ with connsKey := some (σ.connsKey.getD 0 + 1),
           bufKey := some (σ.bufKey.getD []),
           handlers := σ.handlers ++ [.loop] }

/-- `coaching_tasks[meeting_id] = asyncio.create_task(_process_coaching_queue(..))`. -/
def spawnWorker (σ : Sys) : Sys :=
  { σ with workers := σ.workers ++ [⟨.start, false⟩],
           taskRef := some σ.workers.length }

/-- `active_connections[mid].discard(ws)`; `del` the key when it empties. -/
def dropConn : Option Nat → Option Nat
  | none => none
  | some n => if n ≤ 1 then none else some (n - 1)

/-- The `finally` block (lines 292-305): discard this endpoint, then
unconditionally pop the buffer, queue and task entries; a popped task that
is not done is cancelled and awaited (the handler suspends in `waitTask`
until the worker is done). -/
def disconnectResult (σ : Sys) (h : Nat) : Sys :=
  match σ.taskRef with
  | some i =>
    if (σ.workers.getD i dW).st = .done then
      { σ with connsKey := dropConn σ.connsKey, bufKey := none, queueKey := none,
               taskRef := none, handlers := σ.handlers.set h .closed }
    else
      { σ with connsKey := dropConn σ.connsKey, bufKey := none, queueKey := none,
               taskRef := none,
               workers := σ.workers.set i ⟨(σ.workers.getD i dW).st, true⟩,
               handlers := σ.handlers.set h (.waitTask i) }
  | none =>
    { σ with connsKey := dropConn σ.connsKey, bufKey := none, queueKey := none,
             taskRef := none, handlers := σ.handlers.set h .closed }

/-- The `transcript` branch (lines 213-229), entered with the buffer entry
`b` present: append to the buffer; below the minimum length stop there;
otherwise ensure the queue entry, append the sentence, and start a worker
exactly when the registered task is absent or done. -/
def enqueueResult (σ : Sys) (b : List Str) (t : Str) : Sys :=
  if t.length < 5 then { σ with bufKey := some (b ++ [t]) }
  else
    match σ.taskRef with
    | some i =>
      if (σ.workers.getD i dW).st = .done then
        spawnWorker { σ with bufKey := some (b ++ [t]),
                             queueKey := some (σ.queueKey.getD [] ++ [t]) }
      else
        { σ with bufKey := some (b ++ [t]),
                 queueKey := some (σ.queueKey.getD [] ++ [t]) }
    | none =>
      spawnWorker { σ with bufKey := some (b ++ [t]),
                           queueKey := some (σ.queueKey.getD [] ++ [t]) }

/-- An inbound websocket text frame: text that fails `json.loads`
(`JSONDecodeError`), valid JSON that is not an object (`msg.get` raises
`AttributeError`), or a decoded object envelope with its `type`, `text`,
`data` and `mime` fields (absent fields default to the empty string). -/
inductive Inbound where
  | badJson (s : Str)
  | nonDict (s : Str)
  | env (ty text data mime : Str)
deriving DecidableEq

/-- One pass of the receive loop on message `m` (lines 207-289), up to the
first suspension. A decode failure is swallowed by `except JSONDecodeError:
pass`. A non-object JSON value raises `AttributeError` at `msg.get`, which
no handler catches: the loop exits and the `finally` teardown runs. A
`transcript` with the buffer key absent raises `KeyError` at
`meeting_transcript_buffers[meeting_id]` with the same effect. The
`process_transcript` and `audio` branches suspend into their inline oracle
paths; an unknown type falls through every `elif` and is ignored. -/
def recvMessage (σ : Sys) (h : Nat) (m : Inbound) : Sys :=
  match m with
  | .badJson _ => σ
  | .nonDict _ => disconnectResult σ h
  | .env ty text data _ =>
    if ty == lit "transcript" then
      (if pyStrip text == [] then σ
       else match σ.bufKey with
         | none => disconnectResult σ h
         | some b => enqueueResult σ b (pyStrip text))
    else if ty == lit "process_transcript" then
      (if pyStrip text == [] then σ else setH σ h (.ptOracle (pyStrip text)))
    else if ty == lit "audio" then
      (if data == [] then σ else setH σ h (.audioTranscribe true data))
    else σ

/-- The worker `while queue:` loop from re-entry to the next suspension:
pop the head, skip blank sentences without suspending, suspend in the
oracle call on the first non-blank sentence (recording the start event);
when the queue runs out, `coaching_tasks.pop(meeting_id, None)` and finish. -/
def drain (σ : Sys) (i : Nat) : List Str → Sys
  | [] => { σ with workers := σ.workers.set i ⟨.done, false⟩, taskRef := none }
  | s :: rest =>
    if pyStrip s == [] then drain { σ with queueKey := some rest } i rest
    else { σ with queueKey := some rest,
                  workers := σ.workers.set i ⟨.awaitOracle s, false⟩,
                  events := σ.events ++ [.start s] }

/-- Re-check `while queue:` against the queue entry. A live worker always
finds its own list here (see the module comment); the `none` case is
unreachable for a live worker and completes the loop. -/
def contLoop (σ : Sys) (i : Nat) : Sys :=
  drain σ i (σ.queueKey.getD [])

/-- First run of `_process_coaching_queue` (lines 147-155): an absent or
empty queue entry returns at once — without popping the task entry; a
non-empty queue enters the loop. -/
def firstRunResult (σ : Sys) (i : Nat) : Sys :=
  match σ.queueKey with
  | none => setW σ i ⟨.done, false⟩
  | some [] => setW σ i ⟨.done, false⟩
  | some q => drain σ i q

/-- The worker resumes from `asyncio.to_thread(_process_transcript_sync, ..)`
with result `r` (lines 159-165): a non-empty feedback suspends into the
broadcast; `None` (or an empty feedback, which `_send_feedback` returns on
immediately) continues the loop. -/
def oracleDoneResult (σ : Sys) (i : Nat) (s : Str) (r : Option Str) : Sys :=
  match r with
  | some fb =>
    if fb == [] then contLoop σ i
    else { σ with workers := σ.workers.set i ⟨.awaitSend s fb, false⟩ }
  | none => contLoop σ i

/-- The worker resumes after broadcasting feedback for sentence `s`
(recording the broadcast event) and continues the loop. -/
def sendDoneResult (σ : Sys) (i : Nat) (s : Str) : Sys :=
  contLoop { σ with events := σ.events ++ [.bcast s] } i

/-- The handler resumes from the inline `process_transcript` oracle call
(lines 236-247): a truthy result suspends into the feedback broadcast,
otherwise into the failure-notice broadcast. -/
def ptOracleDoneResult (σ : Sys) (h : Nat) (r : Option Str) : Sys :=
  if r.getD [] == [] then setH σ h .ptSendFail
  else setH σ h (.ptSendFeedback (r.getD []))

/-- The handler resumes from a transcription offload on the `audio` path
(lines 258-273): a truthy transcript goes on to broadcast it; the primary
(Groq) falling through tries the secondary (Gemini); both failing goes on
to broadcast the transcription-unavailable notice. -/
def audioTranscribeDoneResult (σ : Sys) (h : Nat) (prim : Bool) (data : Str)
    (r : Option Str) : Sys :=
  if r.getD [] == [] then
    (if prim then setH σ h (.audioTranscribe false data)
     else setH σ h .audioSendUnavail)
  else setH σ h (.audioSendHeard (r.getD []))

/-- The handler resumes from the inline `_process_transcript_sync` offload
on the `audio` path (lines 277-285): truthy feedback suspends into its
broadcast, otherwise back to the receive loop. -/
def audioAnalyzeDoneResult (σ : Sys) (h : Nat) (r : Option Str) : Sys :=
  if r.getD [] == [] then setH σ h .loop
  else setH σ h (.audioSendFeedback (r.getD []))

/-- One transition of the session: a handler or worker atomic block, chosen
nondeterministically, with nondeterministic offload results. -/
inductive Step : Sys → Sys → Prop where
  | connect (σ : Sys) : Step σ (connectResult σ)
  | recv (σ : Sys) (h : Nat) (m : Inbound)
      (hh : σ.handlers.getD h .closed = .loop) : Step σ (recvMessage σ h m)
  | disconnect (σ : Sys) (h : Nat)
      (hh : σ.handlers.getD h .closed = .loop) : Step σ (disconnectResult σ h)
  | waitTaskDone (σ : Sys) (h i : Nat)
      (hh : σ.handlers.getD h .closed = .waitTask i)
      (hw : (σ.workers.getD i dW).st = .done) : Step σ (setH σ h .closed)
  | firstRun (σ : Sys) (i : Nat)
      (hw : σ.workers.getD i dW = ⟨.start, false⟩) : Step σ (firstRunResult σ i)
  | oracleDone (σ : Sys) (i : Nat) (s : Str) (r : Option Str)
      (hw : σ.workers.getD i dW = ⟨.awaitOracle s, false⟩) :
      Step σ (oracleDoneResult σ i s r)
  | sendDone (σ : Sys) (i : Nat) (s fb : Str)
      (hw : σ.workers.getD i dW = ⟨.awaitSend s fb, false⟩) :
      Step σ (sendDoneResult σ i s)
  | cancelDeliver (σ : Sys) (i : Nat)
      (hc : (σ.workers.getD i dW).cancelled = true)
      (hnd : (σ.workers.getD i dW).st ≠ .done) : Step σ (setW σ i ⟨.done, true⟩)
  | ptOracleDone (σ : Sys) (h : Nat) (t : Str) (r : Option Str)
      (hh : σ.handlers.getD h .closed = .ptOracle t) :
      Step σ (ptOracleDoneResult σ h r)
  | ptSendFeedbackDone (σ : Sys) (h : Nat) (fb : Str)
      (hh : σ.handlers.getD h .closed = .ptSendFeedback fb) : Step σ (setH σ h .loop)
  | ptSendFailDone (σ : Sys) (h : Nat)
      (hh : σ.handlers.getD h .closed = .ptSendFail) : Step σ (setH σ h .loop)
  | audioTranscribeDone (σ : Sys) (h : Nat) (prim : Bool) (data : Str) (r : Option Str)
      (hh : σ.handlers.getD h .closed = .audioTranscribe prim data) :
      Step σ (audioTranscribeDoneResult σ h prim data r)
  | audioSendHeardDone (σ : Sys) (h : Nat) (t : Str)
      (hh : σ.handlers.getD h .closed = .audioSendHeard t) :
      Step σ (setH σ h (.audioAnalyze t))
  | audioSendUnavailDone (σ : Sys) (h : Nat)
      (hh : σ.handlers.getD h .closed = .audioSendUnavail) : Step σ (setH σ h .loop)
  | audioAnalyzeDone (σ : Sys) (h : Nat) (t : Str) (r : Option Str)
      (hh : σ.handlers.getD h .closed = .audioAnalyze t) :
      Step σ (audioAnalyzeDoneResult σ h r)
  | audioSendFeedbackDone (σ : Sys) (h : Nat) (fb : Str)
      (hh : σ.handlers.getD h .closed = .audioSendFeedback fb) : Step σ (setH σ h .loop)

/-- Finitely many transitions. -/
def Steps : Sys → Sys → Prop := Relation.ReflTransGen Step

/-- Reachable from server start. -/
def Reachable (σ : Sys) : Prop := Steps Sys.init σ

/-- A worker is active when it can still run user code: not finished and
not cancel-requested. -/
def activeW (w : Worker) : Prop := w.st ≠ .done ∧ w.cancelled = false

/-- The session invariant: (A1) every active worker is the registered task;
(A2) the registered index is in range; (A3) the registered task is never
cancel-requested; (A4) a non-empty queue entry always has a registered,
not-done, not-cancelled worker responsible for it (no missed wakeup). -/
def SessInv (σ : Sys) : Prop :=
  (∀ i, i < σ.workers.length → activeW (σ.workers.getD i dW) → σ.taskRef = some i)
  ∧ (∀ i, σ.taskRef = some i → i < σ.workers.length)
  ∧ (∀ i, σ.taskRef = some i → (σ.workers.getD i dW).cancelled = false)
  ∧ (∀ q, σ.queueKey = some q → q ≠ [] →
      ∃ i, σ.taskRef = some i ∧ (σ.workers.getD i dW).st ≠ .done
        ∧ (σ.workers.getD i dW).cancelled = false)

/-- Workers suspended in an oracle call that can still act, plus handlers
suspended in an inline analysis call: the analysis calls in flight. -/
def analysisCalls (σ : Sys) : Nat :=
  σ.workers.countP (fun w =>
    (match w.st with | .awaitOracle _ => true | _ => false) && !w.cancelled)
  + σ.handlers.countP (fun h =>
    match h with | .ptOracle _ => true | .audioAnalyze _ => true | _ => false)

/-! ## Scenario states -/

/-- A `transcript` envelope carrying sentence `s`. -/
def mkTranscript (s : Str) : Inbound := .env (lit "transcript") s [] []

/-- A sentence as the enqueue filter admits it: already stripped and at
least the minimum queue length. -/
def goodSentence (s : Str) : Prop := pyStrip s = s ∧ 5 ≤ s.length

instance (s : Str) : Decidable (goodSentence s) := by
  unfold goodSentence
  infer_instance

/-- One endpoint connected, sentences `ss` enqueued, the single worker
created but not yet run. -/
def enqState (ss : List Str) : Sys :=
  ⟨some 1, some ss, some ss, some 0, [⟨.start, false⟩], [.loop], []⟩

/-- The worker awaiting the oracle on sentence `s`, queue `q` pending. -/
def procState (s : Str) (q buf : List Str) (ev : List Ev) : Sys :=
  ⟨some 1, some buf, some q, some 0, [⟨.awaitOracle s, false⟩], [.loop], ev⟩

/-- The worker broadcasting feedback `fb` for sentence `s`. -/
def sendState (s fb : Str) (q buf : List Str) (ev : List Ev) : Sys :=
  ⟨some 1, some buf, some q, some 0, [⟨.awaitSend s fb, false⟩], [.loop], ev⟩

/-- The worker finished: queue drained, task entry popped. -/
def doneState (buf : List Str) (ev : List Ev) : Sys :=
  ⟨some 1, some buf, some [], none, [⟨.done, false⟩], [.loop], ev⟩

/-- The serialized event trace the scheduler must produce for `ss`:
oracle start then broadcast for each sentence, strictly in order — the
broadcast of sentence `N` precedes the start of sentence `N + 1`. -/
def canonEvents : List Str → List Ev
  | [] => []
  | s :: rest => .start s :: .bcast s :: canonEvents rest

/-- One endpoint connected and one sentence enqueued (worker spawned). -/
def c1WitState : Sys :=
  recvMessage (connectResult Sys.init) 0 (mkTranscript (lit "hello world"))

/-- C3 trace: enqueue a sentence, let the worker enter its oracle call,
then receive an `audio` message and follow its inline path to the inline
analysis call, with the worker still suspended in its own call. -/
def c3State2 : Sys := firstRunResult c1WitState 0

def c3State3 : Sys := recvMessage c3State2 0 (.env (lit "audio") [] (lit "QUJD") [])

def c3State4 : Sys :=
  audioTranscribeDoneResult c3State3 0 true (lit "QUJD") (some (lit "spoken words"))

def c3State5 : Sys := setH c3State4 0 (.audioAnalyze (lit "spoken words"))

/-- C6 trace: two endpoints of the same session, one sentence enqueued,
then the second endpoint disconnects. -/
def c6State1 : Sys := connectResult (connectResult Sys.init)

def c6State2 : Sys := recvMessage c6State1 0 (mkTranscript (lit "hello world"))

def c6State3 : Sys := disconnectResult c6State2 1

/-! ## Parser theorems -/

theorem truthyS_and_low (o : Option Str) :
    (truthyS o && o == some (lit "low")) = (o == some (lit "low")) := by
  cases o with
  | none => rfl
  | some v =>
    by_cases h : v = lit "low"
    · subst h
      decide
    · simp [truthyS, h]

theorem categoryOf_eq_spec (r : ParseResult) :
    categoryOf r = specPriorityCategory r := by
  unfold categoryOf specPriorityCategory
  rw [truthyS_and_low]

/-- C4, counterexample: the claim says the literal token `None` normalizes to
an absent value for the `suggestion` field, so the scenario input should
yield suggestion absent; the code keeps `suggestion = "None"` (the parser
normalizes every optional field except `suggestion`, line 164 of
`gemini_coach.py` is `value if value else None`). -/
theorem c4_suggestion_not_absent_cex :
    (parse_structured_feedback c4Input).suggestion ≠ none := by decide

/-- C4, amended: the absent tokens `none`, `n/a`, `-` and the empty string
normalize to an absent value for the fillers, filler-breakdown,
improved-sentence and engagement-alert fields; the `suggestion` field is
absent only for the empty value and keeps literal tokens such as `None`.
On the scenario input the category is suggested-sentence and
improved-sentence is "I will present the results.", but suggestion is the
literal text "None", not absent. -/
theorem c4_absent_token_normalization :
    (∀ fm v, (applyKV fm (lit "filler words") v).fillers = normTok v)
    ∧ (∀ fm v, (applyKV fm (lit "filler words (current)") v).fillers = normTok v)
    ∧ (∀ fm v, (applyKV fm (lit "filler breakdown") v).fillerBreakdown = normTok v)
    ∧ (∀ fm v, (applyKV fm (lit "improved sentence") v).improvedSentence = normTok v)
    ∧ (∀ fm v, (applyKV fm (lit "engagement alert") v).engagementAlert = normTok v)
    ∧ (∀ fm v, (applyKV fm (lit "suggestion") v).suggestion
        = (if v == [] then none else some v))
    ∧ normTok (lit "none") = none ∧ normTok (lit "None") = none
    ∧ normTok (lit "NONE") = none ∧ normTok (lit "n/a") = none
    ∧ normTok (lit "N/A") = none ∧ normTok (lit "-") = none ∧ normTok [] = none
    ∧ (parse_structured_feedback c4Input).feedbackType = .suggestedSentence
    ∧ (parse_structured_feedback c4Input).improvedSentence
        = some (lit "I will present the results.")
    ∧ (parse_structured_feedback c4Input).suggestion = some (lit "None") := by
  refine ⟨fun fm v => rfl, fun fm v => rfl, fun fm v => rfl, fun fm v => rfl,
    fun fm v => rfl, fun fm v => rfl, ?_, ?_, ?_, ?_, ?_, ?_, ?_, ?_, ?_, ?_⟩
  all_goals decide

/-- C5: the category is chosen by the strict priority order of the claim
(engagement, then other-language, then pace-volume, then suggested-sentence,
then filler-words, else positive), computed from the parsed fields — not from
the position of lines in the input; in particular an input carrying both a
non-absent engagement alert and a non-absent filler list classifies as
engagement in either line order, never filler-words. -/
theorem c5_category_priority :
    (∀ raw, (parse_structured_feedback raw).feedbackType
        = specPriorityCategory (parse_structured_feedback raw))
    ∧ (parse_structured_feedback c5InputA).feedbackType = .engagement
    ∧ (parse_structured_feedback c5InputA).fillers = some (lit "um, like")
    ∧ (parse_structured_feedback c5InputB).feedbackType = .engagement
    ∧ (parse_structured_feedback c5InputB).fillers = some (lit "um, like") := by
  refine ⟨?_, by decide, by decide, by decide, by decide⟩
  intro raw
  unfold parse_structured_feedback
  split
  · rfl
  · exact categoryOf_eq_spec _

/-- C8: a `Volume:` line always sets the volume field, to `low` exactly when
the (lower-cased) value contains the substring "low" and to `good` otherwise;
a `Pace:` line always sets the pace field to `paceNorm` of the value — `good`
when the value contains "good" or is an absent token or empty, otherwise the
literal value is kept unchanged. -/
theorem c8_volume_pace_normalization :
    (∀ fm v, (applyKV fm (lit "volume") v).volume
        = some (if hasSub (pyLower v) (lit "low") then lit "low" else lit "good"))
    ∧ (∀ fm v, (applyKV fm (lit "pace") v).pace = some (paceNorm v))
    ∧ (parse_structured_feedback (lit "Volume: very low, almost inaudible")).volume
        = some (lit "low")
    ∧ (parse_structured_feedback (lit "Volume: Volume is great")).volume
        = some (lit "good")
    ∧ (parse_structured_feedback (lit "Pace: Speaking too fast, slow down")).pace
        = some (lit "Speaking too fast, slow down")
    ∧ (parse_structured_feedback (lit "Pace: None")).pace = some (lit "good")
    ∧ (parse_structured_feedback (lit "Pace: Pace is good")).pace = some (lit "good") :=
  ⟨fun fm v => rfl, fun fm v => rfl, by decide, by decide, by decide, by decide, by decide⟩

/-- C9: the parser is a total function; the raw input is preserved verbatim in
the result for every input; an empty or all-whitespace input returns the
default record (category positive, every optional field absent); a line
without a colon leaves the field map unchanged; a line with an unrecognized
label leaves the field map unchanged. -/
theorem c9_parser_total :
    (∀ raw, (parse_structured_feedback raw).feedback = raw)
    ∧ (∀ raw, pyStrip raw = [] → parse_structured_feedback raw = { feedback := raw })
    ∧ (∀ fm line, breakColon line = none → applyLine fm line = fm)
    ∧ (∀ fm v, applyKV fm (lit "some unrecognized label") v = fm) := by
  refine ⟨?_, ?_, ?_, fun fm v => rfl⟩
  · intro raw
    unfold parse_structured_feedback
    split
    · rfl
    · rfl
  · intro raw h
    unfold parse_structured_feedback
    simp [h]
  · intro fm line h
    unfold applyLine
    rw [h]

theorem c9_parser_total_witness :
    pyStrip (lit "  \n ") = []
    ∧ parse_structured_feedback (lit "  \n ") = { feedback := lit "  \n " }
    ∧ breakColon (lit "no colon here") = none
    ∧ applyLine {} (lit "no colon here") = {} :=
  ⟨by decide, c9_parser_total.2.1 _ (by decide), by decide,
    c9_parser_total.2.2.1 {} _ (by decide)⟩

/-- C10: a line whose label contains "filler" but matches neither the
filler-words labels nor a breakdown label — such as `Filler Count (Total)` —
writes its value into the fillers field whenever fillers is not already set
(and into the filler-count entry otherwise), so the fillers field and the
resulting category depend on the relative order of the filler-words line and
the filler-count line: with the filler-words line first the count "3" becomes
the fillers value (category filler-words), with it last the fillers value is
absent (category positive). -/
theorem c10_filler_count_order_dependence :
    (∀ fm v, applyKV fm (lit "filler count (total)") v
        = if fm.fillers == none then { fm with fillers := normTok v }
          else { fm with fillerCount := some v })
    ∧ (parse_structured_feedback c10InputA).fillers = some (lit "3")
    ∧ (parse_structured_feedback c10InputA).feedbackType = .fillerWords
    ∧ (parse_structured_feedback c10InputB).fillers = none
    ∧ (parse_structured_feedback c10InputB).feedbackType = .positive := by
  refine ⟨?_, by decide, by decide, by decide, by decide⟩
  intro fm v
  cases hf : fm.fillers with
  | none =>
    simp only [applyKV]
    rw [hf]
    rfl
  | some x =>
    simp only [applyKV]
    rw [hf]
    rfl

/-! ## List access lemmas -/

theorem getD_set_self {α : Type} (d a : α) :
    ∀ (l : List α) (i : Nat), i < l.length → (l.set i a).getD i d = a := by
  intro l
  induction l with
  | nil => intro i h; simp at h
  | cons x xs ih =>
    intro i h
    cases i with
    | zero => rfl
    | succ j => exact ih j (by simpa using h)

theorem getD_set_other {α : Type} (d a : α) :
    ∀ (l : List α) (i j : Nat), i ≠ j → (l.set i a).getD j d = l.getD j d := by
  intro l
  induction l with
  | nil => intro i j _; simp [List.set]
  | cons x xs ih =>
    intro i j hne
    cases i with
    | zero =>
      cases j with
      | zero => exact absurd rfl hne
      | succ k => rfl
    | succ i0 =>
      cases j with
      | zero => rfl
      | succ k => exact ih i0 k (fun hh => hne (by rw [hh]))

theorem getD_append_left {α : Type} (d : α) :
    ∀ (l l2 : List α) (j : Nat), j < l.length → (l ++ l2).getD j d = l.getD j d := by
  intro l
  induction l with
  | nil => intro l2 j h; simp at h
  | cons x xs ih =>
    intro l2 j h
    cases j with
    | zero => rfl
    | succ k => exact ih l2 k (by simpa using h)

theorem getD_append_self {α : Type} (d a : α) :
    ∀ (l : List α), (l ++ [a]).getD l.length d = a := by
  intro l
  induction l with
  | nil => rfl
  | cons x xs ih => exact ih

theorem getD_lt_of_ne {α : Type} (d : α) :
    ∀ (l : List α) (i : Nat), l.getD i d ≠ d → i < l.length := by
  intro l
  induction l with
  | nil => intro i h; exact absurd rfl h
  | cons x xs ih =>
    intro i h
    cases i with
    | zero => simp
    | succ j => simpa using ih j h

theorem mem_getD {α : Type} (d : α) :
    ∀ {l : List α} {x : α}, x ∈ l → ∃ i, i < l.length ∧ l.getD i d = x := by
  intro l
  induction l with
  | nil => intro x h; cases h
  | cons y ys ih =>
    intro x h
    cases h with
    | head => exact ⟨0, by simp, rfl⟩
    | tail _ hm =>
      obtain ⟨i, hi, he⟩ := ih hm
      exact ⟨i + 1, by simpa using hi, he⟩

/-! ## Invariant preservation -/

theorem sessInv_init : SessInv Sys.init := by
  refine ⟨?_, ?_, ?_, ?_⟩
  · intro i hi
    simp [Sys.init] at hi
  · intro i h
    simp [Sys.init] at h
  · intro i h
    simp [Sys.init] at h
  · intro q h
    simp [Sys.init] at h

/-- Steps that leave the workers, task entry and queue entry unchanged
preserve the invariant. -/
theorem sessInv_frame (σ σ' : Sys) (hW : σ'.workers = σ.workers)
    (hT : σ'.taskRef = σ.taskRef) (hQ : σ'.queueKey = σ.queueKey)
    (h : SessInv σ) : SessInv σ' := by
  obtain ⟨a1, a2, a3, a4⟩ := h
  rw [SessInv, hW, hT, hQ]
  exact ⟨a1, a2, a3, a4⟩

/-- The worker loop body preserves the invariant, for a live registered
worker draining the current queue contents. -/
theorem sessInv_drain :
    ∀ (q : List Str) (σ : Sys) (i : Nat),
      (σ.queueKey = some q ∨ (σ.queueKey = none ∧ q = [])) →
      σ.taskRef = some i → i < σ.workers.length →
      (σ.workers.getD i dW).st ≠ .done →
      (σ.workers.getD i dW).cancelled = false →
      SessInv σ → SessInv (drain σ i q) := by
  intro q
  induction q with
  | nil =>
    intro σ i hQ hT hlen _ _ hInv
    obtain ⟨a1, a2, a3, a4⟩ := hInv
    refine ⟨?_, ?_, ?_, ?_⟩
    · intro j hj hact
      exfalso
      simp only [drain] at hj hact
      by_cases hij : i = j
      · subst hij
        rw [getD_set_self _ _ _ _ hlen] at hact
        exact hact.1 rfl
      · rw [getD_set_other _ _ _ _ _ hij] at hact
        have := a1 j (by simpa using hj) hact
        rw [hT] at this
        exact hij (Option.some_injective _ this)
    · intro j hj
      simp only [drain] at hj
      cases hj
    · intro j hj
      simp only [drain] at hj
      cases hj
    · intro q' hq' hne
      exfalso
      simp only [drain] at hq'
      rcases hQ with hQ | ⟨hQ, _⟩
      · rw [hQ] at hq'
        exact hne (Option.some_injective _ hq').symm
      · rw [hQ] at hq'
        cases hq'
  | cons s rest ih =>
    intro σ i hQ hT hlen hst hcan hInv
    obtain ⟨a1, a2, a3, a4⟩ := hInv
    simp only [drain]
    split
    · refine ih { σ with queueKey := some rest } i (Or.inl rfl) hT hlen hst hcan
        ⟨a1, a2, a3, ?_⟩
      intro q' hq' _
      exact ⟨i, hT, hst, hcan⟩
    · refine ⟨?_, ?_, ?_, ?_⟩
      · intro j hj hact
        by_cases hij : i = j
        · subst hij
          exact hT
        · rw [getD_set_other _ _ _ _ _ hij] at hact
          have := a1 j (by simpa using hj) hact
          rw [hT] at this
          exact absurd (Option.some_injective _ this) hij
      · intro j hj
        have hji := Option.some_injective _ (hT.symm.trans hj)
        subst hji
        simpa using hlen
      · intro j hj
        have hji := Option.some_injective _ (hT.symm.trans hj)
        subst hji
        rw [getD_set_self _ _ _ _ hlen]
      · intro q' _ _
        refine ⟨i, hT, ?_, ?_⟩
        · rw [getD_set_self _ _ _ _ hlen]
          simp
        · rw [getD_set_self _ _ _ _ hlen]

/-- Teardown preserves the invariant (afterwards no worker is active). -/
theorem sessInv_disconnect (σ : Sys) (h : Nat) (hInv : SessInv σ) :
    SessInv (disconnectResult σ h) := by
  obtain ⟨a1, a2, a3, a4⟩ := hInv
  cases hT : σ.taskRef with
  | none =>
    simp only [disconnectResult, hT]
    refine ⟨?_, ?_, ?_, ?_⟩ <;> dsimp only
    · intro j hj hact
      exfalso
      have h2 := a1 j hj hact
      rw [hT] at h2
      cases h2
    · intro j hj
      cases hj
    · intro j hj
      cases hj
    · intro q hq
      cases hq
  | some i =>
    by_cases hdone : (σ.workers.getD i dW).st = WSt.done
    · simp only [disconnectResult, hT, if_pos hdone]
      refine ⟨?_, ?_, ?_, ?_⟩ <;> dsimp only
      · intro j hj hact
        exfalso
        have h2 := a1 j hj hact
        rw [hT] at h2
        have hji := Option.some_injective _ h2
        subst hji
        exact hact.1 hdone
      · intro j hj
        cases hj
      · intro j hj
        cases hj
      · intro q hq
        cases hq
    · simp only [disconnectResult, hT, if_neg hdone]
      have hlen : i < σ.workers.length := a2 i hT
      refine ⟨?_, ?_, ?_, ?_⟩ <;> dsimp only
      · intro j hj hact
        exfalso
        rw [List.length_set] at hj
        by_cases hij : i = j
        · subst hij
          rw [getD_set_self _ _ _ _ hlen] at hact
          exact Bool.noConfusion hact.2
        · rw [getD_set_other _ _ _ _ _ hij] at hact
          have h2 := a1 j hj hact
          rw [hT] at h2
          exact hij (Option.some_injective _ h2)
      · intro j hj
        cases hj
      · intro j hj
        cases hj
      · intro q hq
        cases hq

/-- Spawning a worker in a state with no active worker establishes the
invariant. -/
theorem sessInv_spawn (σ : Sys)
    (hNoActive : ∀ j, j < σ.workers.length → ¬ activeW (σ.workers.getD j dW)) :
    SessInv (spawnWorker σ) := by
  refine ⟨?_, ?_, ?_, ?_⟩
  · intro j hj hact
    simp only [spawnWorker, List.length_append, List.length_cons,
      List.length_nil] at hj
    by_cases hje : j = σ.workers.length
    · subst hje
      rfl
    · exfalso
      have hjlt : j < σ.workers.length := by omega
      have := hNoActive j hjlt
      rw [spawnWorker] at hact
      simp only at hact
      rw [getD_append_left _ _ _ _ hjlt] at hact
      exact this hact
  · intro j hj
    simp only [spawnWorker] at hj
    have hje := Option.some_injective _ hj
    subst hje
    simp [spawnWorker]
  · intro j hj
    simp only [spawnWorker] at hj
    have hje := Option.some_injective _ hj
    subst hje
    simp only [spawnWorker]
    rw [getD_append_self]
  · intro q _ _
    refine ⟨σ.workers.length, rfl, ?_, ?_⟩
    · simp only [spawnWorker]
      rw [getD_append_self]
      simp
    · simp only [spawnWorker]
      rw [getD_append_self]

/-- The `transcript` enqueue branch preserves the invariant. -/
theorem sessInv_enqueue (σ : Sys) (b : List Str) (t : Str) (hInv : SessInv σ) :
    SessInv (enqueueResult σ b t) := by
  obtain ⟨a1, a2, a3, a4⟩ := hInv
  by_cases hlt : t.length < 5
  · simp only [enqueueResult, if_pos hlt]
    exact sessInv_frame _ _ rfl rfl rfl ⟨a1, a2, a3, a4⟩
  · cases hT : σ.taskRef with
    | none =>
      simp only [enqueueResult, if_neg hlt, hT]
      refine sessInv_spawn _ ?_
      intro j hj hact
      have h2 := a1 j hj hact
      rw [hT] at h2
      cases h2
    | some i =>
      by_cases hdone : (σ.workers.getD i dW).st = WSt.done
      · simp only [enqueueResult, if_neg hlt, hT, if_pos hdone]
        refine sessInv_spawn _ ?_
        intro j hj hact
        have h2 := a1 j hj hact
        rw [hT] at h2
        have hji := Option.some_injective _ h2
        subst hji
        exact hact.1 hdone
      · simp only [enqueueResult, if_neg hlt, hT, if_neg hdone]
        refine ⟨?_, ?_, ?_, ?_⟩ <;> dsimp only
        · intro j hj hact
          exact hT.symm.trans (a1 j hj hact)
        · intro j hj
          exact a2 j (hT.trans hj)
        · intro j hj
          exact a3 j (hT.trans hj)
        · intro q _ _
          exact ⟨i, rfl, hdone, a3 i hT⟩

/-- One receive-loop pass preserves the invariant, whatever the message. -/
theorem sessInv_recv (σ : Sys) (h : Nat) (m : Inbound) (hInv : SessInv σ) :
    SessInv (recvMessage σ h m) := by
  cases m with
  | badJson s => exact hInv
  | nonDict s => exact sessInv_disconnect σ h hInv
  | env ty text data mime =>
    simp only [recvMessage]
    split
    · split
      · exact hInv
      · split
        · exact sessInv_disconnect σ h hInv
        · exact sessInv_enqueue _ _ _ hInv
    · split
      · split
        · exact hInv
        · exact sessInv_frame _ _ rfl rfl rfl hInv
      · split
        · split
          · exact hInv
          · exact sessInv_frame _ _ rfl rfl rfl hInv
        · exact hInv

/-- Re-entering the worker loop preserves the invariant, for a live
registered worker. -/
theorem sessInv_contLoop (σ : Sys) (i : Nat) (hT : σ.taskRef = some i)
    (hlen : i < σ.workers.length) (hst : (σ.workers.getD i dW).st ≠ .done)
    (hcan : (σ.workers.getD i dW).cancelled = false) (hInv : SessInv σ) :
    SessInv (contLoop σ i) := by
  unfold contLoop
  cases hQ : σ.queueKey with
  | none => exact sessInv_drain [] σ i (Or.inr ⟨hQ, rfl⟩) hT hlen hst hcan hInv
  | some q => exact sessInv_drain q σ i (Or.inl hQ) hT hlen hst hcan hInv

/-- An active worker is the registered one (with the index in range). -/
theorem activeW_registered (σ : Sys) (i : Nat) (hInv : SessInv σ)
    (hne : σ.workers.getD i dW ≠ dW)
    (hact : activeW (σ.workers.getD i dW)) :
    σ.taskRef = some i ∧ i < σ.workers.length := by
  have hlen := getD_lt_of_ne dW σ.workers i hne
  exact ⟨hInv.1 i hlen hact, hlen⟩

/-- Finishing the worker with the queue entry absent or empty (the early
return of lines 151-153, which does not pop the task entry) preserves the
invariant. -/
theorem sessInv_earlyDone (σ : Sys) (i : Nat) (hT : σ.taskRef = some i)
    (hlen : i < σ.workers.length)
    (hQ : σ.queueKey = none ∨ σ.queueKey = some []) (hInv : SessInv σ) :
    SessInv (setW σ i ⟨.done, false⟩) := by
  obtain ⟨a1, a2, a3, a4⟩ := hInv
  refine ⟨?_, ?_, ?_, ?_⟩ <;> dsimp only [setW]
  · intro j hj hact
    exfalso
    rw [List.length_set] at hj
    by_cases hij : i = j
    · subst hij
      rw [getD_set_self _ _ _ _ hlen] at hact
      exact hact.1 rfl
    · rw [getD_set_other _ _ _ _ _ hij] at hact
      have h2 := a1 j hj hact
      rw [hT] at h2
      exact hij (Option.some_injective _ h2)
  · intro j hj
    rw [List.length_set]
    exact a2 j hj
  · intro j hj
    have hji := Option.some_injective _ (hT.symm.trans hj)
    subst hji
    rw [getD_set_self _ _ _ _ hlen]
  · intro q hq hne
    exfalso
    rcases hQ with hQ | hQ
    · rw [hQ] at hq
      cases hq
    · rw [hQ] at hq
      exact hne (Option.some_injective _ hq).symm

/-- The first run of the worker coroutine preserves the invariant. -/
theorem sessInv_firstRun (σ : Sys) (i : Nat)
    (hw : σ.workers.getD i dW = ⟨.start, false⟩) (hInv : SessInv σ) :
    SessInv (firstRunResult σ i) := by
  obtain ⟨hT, hlen⟩ := activeW_registered σ i hInv
    (by rw [hw]; intro hh; cases hh) (by rw [hw]; exact ⟨(by intro hh; cases hh), rfl⟩)
  unfold firstRunResult
  cases hQ : σ.queueKey with
  | none => exact sessInv_earlyDone σ i hT hlen (Or.inl hQ) hInv
  | some q =>
    cases q with
    | nil => exact sessInv_earlyDone σ i hT hlen (Or.inr hQ) hInv
    | cons s rest =>
      refine sessInv_drain (s :: rest) σ i (Or.inl hQ) hT hlen ?_ ?_ hInv
      · rw [hw]
        intro hh
        cases hh
      · rw [hw]

/-- The worker resuming from the oracle call preserves the invariant. -/
theorem sessInv_oracleDone (σ : Sys) (i : Nat) (s : Str) (r : Option Str)
    (hw : σ.workers.getD i dW = ⟨.awaitOracle s, false⟩) (hInv : SessInv σ) :
    SessInv (oracleDoneResult σ i s r) := by
  obtain ⟨hT, hlen⟩ := activeW_registered σ i hInv
    (by rw [hw]; intro hh; cases hh) (by rw [hw]; exact ⟨(by intro hh; cases hh), rfl⟩)
  have hst : (σ.workers.getD i dW).st ≠ .done := by
    rw [hw]
    intro hh
    cases hh
  have hcan : (σ.workers.getD i dW).cancelled = false := by rw [hw]
  obtain ⟨a1, a2, a3, a4⟩ := hInv
  unfold oracleDoneResult
  cases r with
  | none => exact sessInv_contLoop σ i hT hlen hst hcan ⟨a1, a2, a3, a4⟩
  | some fb =>
    dsimp only
    split
    · exact sessInv_contLoop σ i hT hlen hst hcan ⟨a1, a2, a3, a4⟩
    · refine ⟨?_, ?_, ?_, ?_⟩ <;> dsimp only
      · intro j hj hact
        rw [List.length_set] at hj
        by_cases hij : i = j
        · subst hij
          exact hT
        · rw [getD_set_other _ _ _ _ _ hij] at hact
          have h2 := a1 j hj hact
          rw [hT] at h2
          exact absurd (Option.some_injective _ h2) hij
      · intro j hj
        rw [List.length_set]
        exact a2 j hj
      · intro j hj
        have hji := Option.some_injective _ (hT.symm.trans hj)
        subst hji
        rw [getD_set_self _ _ _ _ hlen]
      · intro q hq hne
        refine ⟨i, hT, ?_, ?_⟩
        · rw [getD_set_self _ _ _ _ hlen]
          intro hh
          cases hh
        · rw [getD_set_self _ _ _ _ hlen]

/-- The worker resuming from the feedback broadcast preserves the invariant. -/
theorem sessInv_sendDone (σ : Sys) (i : Nat) (s fb : Str)
    (hw : σ.workers.getD i dW = ⟨.awaitSend s fb, false⟩) (hInv : SessInv σ) :
    SessInv (sendDoneResult σ i s) := by
  obtain ⟨hT, hlen⟩ := activeW_registered σ i hInv
    (by rw [hw]; intro hh; cases hh) (by rw [hw]; exact ⟨(by intro hh; cases hh), rfl⟩)
  obtain ⟨a1, a2, a3, a4⟩ := hInv
  unfold sendDoneResult
  refine sessInv_contLoop _ i hT hlen ?_ ?_ ⟨a1, a2, a3, a4⟩
  · rw [hw]
    intro hh
    cases hh
  · rw [hw]

/-- Delivery of a requested cancellation preserves the invariant. -/
theorem sessInv_cancelDeliver (σ : Sys) (i : Nat)
    (hc : (σ.workers.getD i dW).cancelled = true) (hInv : SessInv σ) :
    SessInv (setW σ i ⟨.done, true⟩) := by
  obtain ⟨a1, a2, a3, a4⟩ := hInv
  have hlen : i < σ.workers.length := by
    refine getD_lt_of_ne dW σ.workers i ?_
    intro hh
    rw [hh] at hc
    cases hc
  refine ⟨?_, ?_, ?_, ?_⟩ <;> dsimp only [setW]
  · intro j hj hact
    rw [List.length_set] at hj
    by_cases hij : i = j
    · subst hij
      rw [getD_set_self _ _ _ _ hlen] at hact
      exact absurd hact.2 (by intro hh; cases hh)
    · rw [getD_set_other _ _ _ _ _ hij] at hact
      exact a1 j hj hact
  · intro j hj
    rw [List.length_set]
    exact a2 j hj
  · intro j hj
    have hne : j ≠ i := by
      intro hh
      subst hh
      rw [a3 j hj] at hc
      cases hc
    rw [getD_set_other _ _ _ _ _ (fun hh => hne hh.symm)]
    exact a3 j hj
  · intro q hq hne
    obtain ⟨i', hT', hst', hcan'⟩ := a4 q hq hne
    have hne2 : i ≠ i' := by
      intro hh
      subst hh
      rw [hcan'] at hc
      cases hc
    refine ⟨i', hT', ?_, ?_⟩
    · rw [getD_set_other _ _ _ _ _ hne2]
      exact hst'
    · rw [getD_set_other _ _ _ _ _ hne2]
      exact hcan'

/-- Every transition preserves the session invariant. -/
theorem sessInv_step (σ σ2 : Sys) (hs : Step σ σ2) (hInv : SessInv σ) :
    SessInv σ2 := by
  cases hs with
  | connect => exact sessInv_frame _ _ rfl rfl rfl hInv
  | recv h m hh => exact sessInv_recv _ h m hInv
  | disconnect h hh => exact sessInv_disconnect _ h hInv
  | waitTaskDone h i hh hw => exact sessInv_frame _ _ rfl rfl rfl hInv
  | firstRun i hw => exact sessInv_firstRun _ i hw hInv
  | oracleDone i s r hw => exact sessInv_oracleDone _ i s r hw hInv
  | sendDone i s fb hw => exact sessInv_sendDone _ i s fb hw hInv
  | cancelDeliver i hc hnd => exact sessInv_cancelDeliver _ i hc hInv
  | ptOracleDone h t r hh =>
    unfold ptOracleDoneResult
    split
    · exact sessInv_frame _ _ rfl rfl rfl hInv
    · exact sessInv_frame _ _ rfl rfl rfl hInv
  | ptSendFeedbackDone h fb hh => exact sessInv_frame _ _ rfl rfl rfl hInv
  | ptSendFailDone h hh => exact sessInv_frame _ _ rfl rfl rfl hInv
  | audioTranscribeDone h prim data r hh =>
    unfold audioTranscribeDoneResult
    split
    · split
      · exact sessInv_frame _ _ rfl rfl rfl hInv
      · exact sessInv_frame _ _ rfl rfl rfl hInv
    · exact sessInv_frame _ _ rfl rfl rfl hInv
  | audioSendHeardDone h t hh => exact sessInv_frame _ _ rfl rfl rfl hInv
  | audioSendUnavailDone h hh => exact sessInv_frame _ _ rfl rfl rfl hInv
  | audioAnalyzeDone h t r hh =>
    unfold audioAnalyzeDoneResult
    split
    · exact sessInv_frame _ _ rfl rfl rfl hInv
    · exact sessInv_frame _ _ rfl rfl rfl hInv
  | audioSendFeedbackDone h fb hh => exact sessInv_frame _ _ rfl rfl rfl hInv

/-- Every reachable session state satisfies the invariant. -/
theorem sessInv_reachable (σ : Sys) (hr : Reachable σ) : SessInv σ := by
  induction hr with
  | refl => exact sessInv_init
  | tail _ hstep ih => exact sessInv_step _ _ hstep ih

/-- C1: in every reachable session state (i) at most one worker task is
active — where active means it can still run user code: not done and not
cancel-requested (a task popped and cancelled by teardown is done for every
behavioural purpose, it never processes or broadcasts again); (ii) no missed
wakeup: whenever the queue entry is non-empty, a not-done, not-cancelled
worker is registered for the session, so the queued sentence will be
processed; (iii) an enqueue of a transcript sentence while the registered
worker is not done starts no new worker and leaves the worker arena and the
task entry unchanged — it only appends to the session queue (and buffer). -/
theorem c1_single_worker (σ : Sys) (hr : Reachable σ) :
    (∀ i j, i < σ.workers.length → j < σ.workers.length →
      activeW (σ.workers.getD i dW) → activeW (σ.workers.getD j dW) → i = j)
    ∧ (∀ q, σ.queueKey = some q → q ≠ [] →
        ∃ i, σ.taskRef = some i ∧ (σ.workers.getD i dW).st ≠ .done
          ∧ (σ.workers.getD i dW).cancelled = false)
    ∧ (∀ h text b i, σ.bufKey = some b → σ.taskRef = some i →
        (σ.workers.getD i dW).st ≠ .done →
        (recvMessage σ h (mkTranscript text)).workers = σ.workers
        ∧ (recvMessage σ h (mkTranscript text)).taskRef = σ.taskRef
        ∧ (pyStrip text ≠ [] → ¬ (pyStrip text).length < 5 →
            (recvMessage σ h (mkTranscript text)).queueKey
              = some (σ.queueKey.getD [] ++ [pyStrip text]))) := by
  have hInv := sessInv_reachable σ hr
  refine ⟨?_, hInv.2.2.2, ?_⟩
  · intro i j hi hj ha hb
    have h1 := hInv.1 i hi ha
    have h2 := hInv.1 j hj hb
    exact Option.some_injective _ (h1.symm.trans h2)
  · intro h text b i hB hT hnd
    simp only [mkTranscript, recvMessage,
      if_pos (by decide : (lit "transcript" == lit "transcript") = true)]
    by_cases hemp : (pyStrip text == []) = true
    · rw [if_pos hemp]
      exact ⟨by trivial, by trivial, fun hne _ => absurd (by simpa using hemp) hne⟩
    · rw [if_neg hemp]
      simp only [hB]
      by_cases hlt : (pyStrip text).length < 5
      · simp only [enqueueResult, if_pos hlt]
        exact ⟨by trivial, by trivial, fun _ hcontra => absurd hlt hcontra⟩
      · simp only [enqueueResult, if_neg hlt, hT, if_neg hnd]
        exact ⟨by trivial, by trivial, fun _ _ => by trivial⟩

theorem c1_single_worker_witness :
    c1WitState.bufKey = some [lit "hello world"]
    ∧ c1WitState.taskRef = some 0
    ∧ (c1WitState.workers.getD 0 dW).st ≠ WSt.done
    ∧ (recvMessage c1WitState 0 (mkTranscript (lit "second sentence"))).workers
        = c1WitState.workers
    ∧ (recvMessage c1WitState 0 (mkTranscript (lit "second sentence"))).queueKey
        = some (c1WitState.queueKey.getD [] ++ [pyStrip (lit "second sentence")]) := by
  have hreach : Reachable c1WitState :=
    Relation.ReflTransGen.tail
      (Relation.ReflTransGen.tail Relation.ReflTransGen.refl (Step.connect Sys.init))
      (Step.recv (connectResult Sys.init) 0 (mkTranscript (lit "hello world")) (by decide))
  have henq := (c1_single_worker c1WitState hreach).2.2 0 (lit "second sentence")
    [lit "hello world"] 0 (by decide) (by decide) (by decide)
  exact ⟨by decide, by decide, by decide, henq.1, henq.2.2 (by decide) (by decide)⟩

theorem goodSentence_ne_nil (s : Str) (h : goodSentence s) : s ≠ [] := by
  intro hh
  subst hh
  simpa using h.2

/-- A valid transcript message reduces to the enqueue branch. -/
theorem recv_transcript_eq (σ : Sys) (h : Nat) (s : Str) (b : List Str)
    (hstrip : pyStrip s = s) (hlen : 5 ≤ s.length) (hB : σ.bufKey = some b) :
    recvMessage σ h (mkTranscript s) = enqueueResult σ b s := by
  have hsne : s ≠ [] := by
    intro hh
    subst hh
    simp at hlen
  simp only [recvMessage, mkTranscript,
    if_pos (by decide : (lit "transcript" == lit "transcript") = true), hstrip, hB]
  rw [if_neg (by simp [hsne])]

/-- Enqueue with no registered task spawns the worker. -/
theorem enqueue_spawn_eq (σ : Sys) (b : List Str) (s : Str) (hlen : 5 ≤ s.length)
    (hT : σ.taskRef = none) :
    enqueueResult σ b s
      = spawnWorker { σ with bufKey := some (b ++ [s]),
                             queueKey := some (σ.queueKey.getD [] ++ [s]) } := by
  simp only [enqueueResult, if_neg (by omega : ¬ s.length < 5), hT]

/-- Enqueue with a registered not-done task only appends. -/
theorem enqueue_append_eq (σ : Sys) (b : List Str) (s : Str) (i : Nat)
    (hlen : 5 ≤ s.length) (hT : σ.taskRef = some i)
    (hnd : (σ.workers.getD i dW).st ≠ .done) :
    enqueueResult σ b s
      = { σ with bufKey := some (b ++ [s]),
                 queueKey := some (σ.queueKey.getD [] ++ [s]) } := by
  simp only [enqueueResult, if_neg (by omega : ¬ s.length < 5), hT, if_neg hnd]

theorem enq_first_eq (s : Str) (hgood : goodSentence s) :
    recvMessage (connectResult Sys.init) 0 (mkTranscript s) = enqState [s] := by
  rw [recv_transcript_eq _ _ _ [] hgood.1 hgood.2 rfl]
  rw [enqueue_spawn_eq _ _ _ hgood.2 rfl]
  rfl

theorem enq_next_eq (ss : List Str) (s : Str) (hgood : goodSentence s) :
    recvMessage (enqState ss) 0 (mkTranscript s) = enqState (ss ++ [s]) := by
  rw [recv_transcript_eq _ _ _ ss hgood.1 hgood.2 rfl]
  rw [enqueue_append_eq _ _ _ 0 hgood.2 rfl (by intro hh; cases hh)]
  rfl

/-- Enqueueing `ss` from idle: reachable, with exactly one spawn. -/
theorem enq_phase (ss : List Str) (hne : ss ≠ [])
    (hgood : ∀ s ∈ ss, goodSentence s) :
    Steps (connectResult Sys.init) (enqState ss) := by
  induction ss using List.reverseRecOn with
  | nil => exact absurd rfl hne
  | append_singleton l a ih =>
    by_cases hl : l = []
    · subst hl
      simp only [List.nil_append]
      have he := enq_first_eq a (hgood a (by simp))
      have hstep : Step (connectResult Sys.init) (enqState [a]) := by
        rw [← he]
        exact Step.recv (connectResult Sys.init) 0 (mkTranscript a) rfl
      exact Relation.ReflTransGen.single hstep
    · have hsteps := ih hl (fun s hs => hgood s (by simp [hs]))
      refine Relation.ReflTransGen.tail hsteps ?_
      have he := enq_next_eq l a (hgood a (by simp))
      have hstep : Step (enqState l) (enqState (l ++ [a])) := by
        rw [← he]
        exact Step.recv (enqState l) 0 (mkTranscript a) rfl
      exact hstep

theorem oracle_step_eq (s : Str) (q buf : List Str) (ev : List Ev)
    (hsne : s ≠ []) :
    oracleDoneResult (procState s q buf ev) 0 s (some s) = sendState s s q buf ev := by
  simp only [oracleDoneResult]
  rw [if_neg (by simp [hsne])]
  rfl

theorem send_step_eq_nil (s fb : Str) (buf : List Str) (ev : List Ev) :
    sendDoneResult (sendState s fb [] buf ev) 0 s = doneState buf (ev ++ [.bcast s]) := by
  rfl

theorem send_step_eq_cons (s fb x : Str) (rest buf : List Str) (ev : List Ev)
    (hx : pyStrip x = x) (hxne : x ≠ []) :
    sendDoneResult (sendState s fb (x :: rest) buf ev) 0 s
      = procState x rest buf ((ev ++ [.bcast s]) ++ [.start x]) := by
  show drain ⟨some 1, some buf, some (x :: rest), some 0,
    [⟨.awaitSend s fb, false⟩], [.loop], ev ++ [.bcast s]⟩ 0 (x :: rest) = _
  simp only [drain, hx]
  rw [if_neg (by simp [hxne])]
  rfl

/-- The worker drains queue `q` serially: for each sentence the oracle call
starts, then its feedback is broadcast, before the next sentence starts. -/
theorem proc_phase (q : List Str) (hgood : ∀ x ∈ q, goodSentence x) :
    ∀ (s : Str) (buf : List Str) (ev : List Ev), s ≠ [] →
      Steps (procState s q buf ev) (doneState buf ((ev ++ [.bcast s]) ++ canonEvents q)) := by
  induction q with
  | nil =>
    intro s buf ev hsne
    have st1 : Step (procState s [] buf ev) (sendState s s [] buf ev) := by
      rw [← oracle_step_eq s [] buf ev hsne]
      exact Step.oracleDone _ 0 s (some s) rfl
    have st2 : Step (sendState s s [] buf ev) (doneState buf (ev ++ [.bcast s])) := by
      rw [← send_step_eq_nil s s buf ev]
      exact Step.sendDone _ 0 s s rfl
    have hev : (ev ++ [Ev.bcast s]) ++ canonEvents [] = ev ++ [Ev.bcast s] := by
      simp [canonEvents]
    rw [hev]
    exact Relation.ReflTransGen.tail (Relation.ReflTransGen.single st1) st2
  | cons x rest ih =>
    intro s buf ev hsne
    have hgx := hgood x (by simp)
    have hxne := goodSentence_ne_nil x hgx
    have st1 : Step (procState s (x :: rest) buf ev) (sendState s s (x :: rest) buf ev) := by
      rw [← oracle_step_eq s (x :: rest) buf ev hsne]
      exact Step.oracleDone _ 0 s (some s) rfl
    have st2 : Step (sendState s s (x :: rest) buf ev)
        (procState x rest buf ((ev ++ [.bcast s]) ++ [.start x])) := by
      rw [← send_step_eq_cons s s x rest buf ev hgx.1 hxne]
      exact Step.sendDone _ 0 s s rfl
    have hrest := ih (fun y hy => hgood y (by simp [hy])) x buf
      ((ev ++ [.bcast s]) ++ [.start x]) hxne
    have hev : (((ev ++ [Ev.bcast s]) ++ [Ev.start x]) ++ [Ev.bcast x]) ++ canonEvents rest
        = (ev ++ [Ev.bcast s]) ++ canonEvents (x :: rest) := by
      simp [canonEvents]
    rw [hev] at hrest
    exact Relation.ReflTransGen.trans
      (Relation.ReflTransGen.tail (Relation.ReflTransGen.single st1) st2) hrest

theorem firstRun_eq (s1 : Str) (rest : List Str) (hgood : goodSentence s1) :
    firstRunResult (enqState (s1 :: rest)) 0 = procState s1 rest (s1 :: rest) [.start s1] := by
  show drain (enqState (s1 :: rest)) 0 (s1 :: rest) = _
  simp only [drain, hgood.1]
  rw [if_neg (by simp [goodSentence_ne_nil s1 hgood])]
  rfl

/-- C2: enqueueing `s1 :: rest` for one session while no worker is active
produces the run in which exactly one worker is spawned (the worker arena
of the final state has length one, and workers are never removed, so its
length counts every `create_task` of the trace) and the event log is
exactly `canonEvents (s1 :: rest)`: the oracle call for each sentence
starts and its feedback is broadcast strictly in enqueue order, the
broadcast of sentence `N` preceding the start of sentence `N + 1`. -/
theorem c2_fifo_order (s1 : Str) (rest : List Str) (h1 : goodSentence s1)
    (hrest : ∀ s ∈ rest, goodSentence s) :
    Steps Sys.init (doneState (s1 :: rest) (canonEvents (s1 :: rest)))
    ∧ (doneState (s1 :: rest) (canonEvents (s1 :: rest))).events = canonEvents (s1 :: rest)
    ∧ (doneState (s1 :: rest) (canonEvents (s1 :: rest))).workers.length = 1
    ∧ canonEvents (s1 :: rest) = .start s1 :: .bcast s1 :: canonEvents rest := by
  refine ⟨?_, rfl, rfl, rfl⟩
  have h0 : Steps Sys.init (connectResult Sys.init) :=
    Relation.ReflTransGen.single (Step.connect Sys.init)
  have hall : ∀ s ∈ s1 :: rest, goodSentence s := by
    intro s hs
    rcases List.mem_cons.mp hs with hh | hh
    · subst hh
      exact h1
    · exact hrest s hh
  have henq := enq_phase (s1 :: rest) (by simp) hall
  have hfr : Step (enqState (s1 :: rest)) (procState s1 rest (s1 :: rest) [.start s1]) := by
    rw [← firstRun_eq s1 rest h1]
    exact Step.firstRun _ 0 rfl
  have hproc := proc_phase rest hrest s1 (s1 :: rest) [.start s1]
    (goodSentence_ne_nil s1 h1)
  have hev : (([Ev.start s1] ++ [Ev.bcast s1]) ++ canonEvents rest)
      = canonEvents (s1 :: rest) := by
    simp [canonEvents]
  rw [hev] at hproc
  exact Relation.ReflTransGen.trans h0
    (Relation.ReflTransGen.trans henq
      (Relation.ReflTransGen.trans (Relation.ReflTransGen.single hfr) hproc))

theorem c2_fifo_order_witness :
    goodSentence (lit "hello world")
    ∧ Steps Sys.init
        (doneState [lit "hello world", lit "nice to meet you"]
          (canonEvents [lit "hello world", lit "nice to meet you"]))
    ∧ canonEvents [lit "hello world", lit "nice to meet you"]
        = [.start (lit "hello world"), .bcast (lit "hello world"),
           .start (lit "nice to meet you"), .bcast (lit "nice to meet you")] :=
  ⟨by decide,
    (c2_fifo_order (lit "hello world") [lit "nice to meet you"]
      (by decide) (by decide)).1,
    by decide⟩

theorem countP_le_one_of_unique (p : Worker → Bool) :
    ∀ (l : List Worker),
      (∀ i j, i < l.length → j < l.length →
        p (l.getD i dW) = true → p (l.getD j dW) = true → i = j) →
      l.countP p ≤ 1 := by
  intro l
  induction l with
  | nil => intro _; simp
  | cons w ws ih =>
    intro h
    by_cases hw : p w = true
    · have hz : ws.countP p = 0 := by
        rw [List.countP_eq_zero]
        intro x hx hpx
        obtain ⟨k, hk, he⟩ := mem_getD dW hx
        have h0 : ((w :: ws).getD 0 dW) = w := rfl
        have hk1 : ((w :: ws).getD (k + 1) dW) = ws.getD k dW := rfl
        have := h 0 (k + 1) (by simp) (by simpa using Nat.succ_lt_succ hk)
          (by rw [h0]; exact hw) (by rw [hk1, he]; exact hpx)
        cases this
      rw [List.countP_cons_of_pos _ _ hw, hz]
    · rw [List.countP_cons_of_neg _ _ hw]
      refine ih ?_
      intro i j hi hj hpi hpj
      have := h (i + 1) (j + 1) (by simpa using Nat.succ_lt_succ hi)
        (by simpa using Nat.succ_lt_succ hj) hpi hpj
      omega

/-- C3, counterexample: a reachable state with two analysis calls in flight
for one session — the queue worker suspended in its oracle call on the
queued sentence, and the handler suspended in the inline analysis call of
the `audio` path (whose transcript was never enqueued: the queue entry is
already empty). -/
theorem c3_two_inflight_cex :
    Steps Sys.init c3State5
    ∧ analysisCalls c3State5 = 2
    ∧ c3State5.queueKey = some [] := by
  refine ⟨?_, by decide, by decide⟩
  have h1 : Steps Sys.init c1WitState :=
    Relation.ReflTransGen.tail
      (Relation.ReflTransGen.single (Step.connect Sys.init))
      (Step.recv (connectResult Sys.init) 0 (mkTranscript (lit "hello world")) (by decide))
  have h2 : Steps Sys.init c3State2 :=
    Relation.ReflTransGen.tail h1 (Step.firstRun c1WitState 0 (by decide))
  have h3 : Steps Sys.init c3State3 :=
    Relation.ReflTransGen.tail h2
      (Step.recv c3State2 0 (.env (lit "audio") [] (lit "QUJD") []) (by decide))
  have h4 : Steps Sys.init c3State4 :=
    Relation.ReflTransGen.tail h3
      (Step.audioTranscribeDone c3State3 0 true (lit "QUJD")
        (some (lit "spoken words")) (by decide))
  exact Relation.ReflTransGen.tail h4
    (Step.audioSendHeardDone c3State4 0 (lit "spoken words") (by decide))

/-- C3, amended: per session the *queued-sentence* path is single-flight —
in every reachable state at most one worker that can still act is suspended
in an oracle call (the queue serializes them) — but the `process_transcript`
and `audio` paths run their oracle calls inline in the handler coroutine,
concurrently with any worker call, and never through the queue: their
receive transitions leave the queue entry and the worker arena untouched,
so a transcript obtained from the audio path is analyzed by a direct inline
call, not through the single-flight queue. -/
theorem c3_worker_single_flight (σ : Sys) (hr : Reachable σ) :
    σ.workers.countP (fun w =>
        (match w.st with | .awaitOracle _ => true | _ => false) && !w.cancelled) ≤ 1
    ∧ (∀ h text data mime,
        (recvMessage σ h (.env (lit "process_transcript") text data mime)).queueKey
            = σ.queueKey
        ∧ (recvMessage σ h (.env (lit "process_transcript") text data mime)).workers
            = σ.workers
        ∧ (recvMessage σ h (.env (lit "audio") text data mime)).queueKey = σ.queueKey
        ∧ (recvMessage σ h (.env (lit "audio") text data mime)).workers = σ.workers) := by
  have hInv := sessInv_reachable σ hr
  constructor
  · refine countP_le_one_of_unique _ σ.workers ?_
    intro i j hi hj hpi hpj
    have hacti : activeW (σ.workers.getD i dW) := by
      refine ⟨?_, ?_⟩
      · intro hh
        rw [hh] at hpi
        simp at hpi
      · have hc := (Bool.and_eq_true _ _).mp hpi
        simpa using hc.2
    have hactj : activeW (σ.workers.getD j dW) := by
      refine ⟨?_, ?_⟩
      · intro hh
        rw [hh] at hpj
        simp at hpj
      · have hc := (Bool.and_eq_true _ _).mp hpj
        simpa using hc.2
    have h1 := hInv.1 i hi hacti
    have h2 := hInv.1 j hj hactj
    exact Option.some_injective _ (h1.symm.trans h2)
  · intro h text data mime
    refine ⟨?_, ?_, ?_, ?_⟩
    · simp only [recvMessage,
        if_neg (by decide : ¬ (lit "process_transcript" == lit "transcript") = true),
        if_pos (by decide : (lit "process_transcript" == lit "process_transcript") = true)]
      split <;> rfl
    · simp only [recvMessage,
        if_neg (by decide : ¬ (lit "process_transcript" == lit "transcript") = true),
        if_pos (by decide : (lit "process_transcript" == lit "process_transcript") = true)]
      split <;> rfl
    · simp only [recvMessage,
        if_neg (by decide : ¬ (lit "audio" == lit "transcript") = true),
        if_neg (by decide : ¬ (lit "audio" == lit "process_transcript") = true),
        if_pos (by decide : (lit "audio" == lit "audio") = true)]
      split <;> rfl
    · simp only [recvMessage,
        if_neg (by decide : ¬ (lit "audio" == lit "transcript") = true),
        if_neg (by decide : ¬ (lit "audio" == lit "process_transcript") = true),
        if_pos (by decide : (lit "audio" == lit "audio") = true)]
      split <;> rfl

theorem c3_worker_single_flight_witness :
    c3State2.workers.countP (fun w =>
        (match w.st with | .awaitOracle _ => true | _ => false) && !w.cancelled) ≤ 1
    ∧ (recvMessage c3State2 0
        (.env (lit "process_transcript") (lit "full text") [] [])).queueKey
          = c3State2.queueKey := by
  have hreach : Reachable c3State2 :=
    Relation.ReflTransGen.tail
      (Relation.ReflTransGen.tail
        (Relation.ReflTransGen.single (Step.connect Sys.init))
        (Step.recv (connectResult Sys.init) 0 (mkTranscript (lit "hello world"))
          (by decide)))
      (Step.firstRun c1WitState 0 (by decide))
  have hmain := c3_worker_single_flight c3State2 hreach
  exact ⟨hmain.1, (hmain.2 0 (lit "full text") [] []).1⟩

theorem drain_handlers (i : Nat) :
    ∀ (q : List Str) (σ : Sys), (drain σ i q).handlers = σ.handlers := by
  intro q
  induction q with
  | nil => intro σ; rfl
  | cons s rest ih =>
    intro σ
    simp only [drain]
    split
    · exact ih _
    · rfl

theorem contLoop_handlers (σ : Sys) (i : Nat) :
    (contLoop σ i).handlers = σ.handlers := drain_handlers i _ σ

theorem firstRun_handlers (σ : Sys) (i : Nat) :
    (firstRunResult σ i).handlers = σ.handlers := by
  unfold firstRunResult
  cases hQ : σ.queueKey with
  | none => rfl
  | some q =>
    cases q with
    | nil => rfl
    | cons s rest => exact drain_handlers i _ σ

theorem oracleDone_handlers (σ : Sys) (i : Nat) (s : Str) (r : Option Str) :
    (oracleDoneResult σ i s r).handlers = σ.handlers := by
  unfold oracleDoneResult
  cases r with
  | none => exact contLoop_handlers σ i
  | some fb =>
    dsimp only
    split
    · exact contLoop_handlers σ i
    · rfl

theorem sendDone_handlers (σ : Sys) (i : Nat) (s : Str) :
    (sendDoneResult σ i s).handlers = σ.handlers :=
  contLoop_handlers _ i

theorem enqueue_handlers (σ : Sys) (b : List Str) (t : Str) :
    (enqueueResult σ b t).handlers = σ.handlers := by
  unfold enqueueResult
  split
  · rfl
  · cases hT : σ.taskRef with
    | none => rfl
    | some i =>
      dsimp only
      split
      · rfl
      · rfl

theorem waitTask_unchanged (l : List HSt) (h2 i : Nat)
    (hw : l.getD h2 .closed = .waitTask i) (hcl : l.getD h2 .closed = .closed) :
    False := by
  rw [hw] at hcl
  cases hcl

theorem waitTask_set_ne_closed (l : List HSt) (hp h2 i : Nat) (st : HSt)
    (hne : st ≠ .closed) (hw : l.getD h2 .closed = .waitTask i)
    (hcl : (l.set hp st).getD h2 .closed = .closed) : False := by
  by_cases he : hp = h2
  · subst he
    have hlen : hp < l.length := by
      refine getD_lt_of_ne HSt.closed l hp ?_
      rw [hw]
      intro hh
      cases hh
    rw [getD_set_self _ _ _ _ hlen] at hcl
    exact hne hcl
  · rw [getD_set_other _ _ _ _ _ he] at hcl
    exact waitTask_unchanged l h2 i hw hcl

theorem waitTask_set_closed_guard (l : List HSt) (hp h2 i : Nat)
    (hguard : l.getD hp .closed ≠ .waitTask i)
    (hw : l.getD h2 .closed = .waitTask i)
    (hcl : (l.set hp .closed).getD h2 .closed = .closed) : False := by
  by_cases he : hp = h2
  · subst he
    exact hguard hw
  · rw [getD_set_other _ _ _ _ _ he] at hcl
    exact waitTask_unchanged l h2 i hw hcl

theorem waitTask_append (l : List HSt) (a : HSt) (h2 i : Nat)
    (hw : l.getD h2 .closed = .waitTask i)
    (hcl : (l ++ [a]).getD h2 .closed = .closed) : False := by
  have hlen : h2 < l.length := by
    refine getD_lt_of_ne HSt.closed l h2 ?_
    rw [hw]
    intro hh
    cases hh
  rw [getD_append_left _ _ _ _ hlen] at hcl
  exact waitTask_unchanged l h2 i hw hcl

theorem waitTask_disconnect (σ : Sys) (hp h2 i : Nat)
    (hguard : σ.handlers.getD hp .closed = .loop)
    (hw : σ.handlers.getD h2 .closed = .waitTask i)
    (hcl : (disconnectResult σ hp).handlers.getD h2 .closed = .closed) : False := by
  have hne : σ.handlers.getD hp .closed ≠ .waitTask i := by
    rw [hguard]
    intro hh
    cases hh
  cases hT : σ.taskRef with
  | none =>
    simp only [disconnectResult, hT] at hcl
    exact waitTask_set_closed_guard _ hp h2 i hne hw hcl
  | some j =>
    simp only [disconnectResult, hT] at hcl
    by_cases hdone : (σ.workers.getD j dW).st = WSt.done
    · rw [if_pos hdone] at hcl
      exact waitTask_set_closed_guard _ hp h2 i hne hw hcl
    · rw [if_neg hdone] at hcl
      refine waitTask_set_ne_closed _ hp h2 i (.waitTask j) ?_ hw hcl
      intro hh
      cases hh

/-- In any single transition, a handler awaiting a cancelled worker
(`await task` in the `finally` block) becomes `closed` only when that
worker is done: teardown awaits the worker's actual termination. -/
theorem waitTask_closes_only_done (σ σ2 : Sys) (hs : Step σ σ2) (h2 i : Nat)
    (hw : σ.handlers.getD h2 .closed = .waitTask i)
    (hcl : σ2.handlers.getD h2 .closed = .closed) :
    (σ.workers.getD i dW).st = .done := by
  cases hs with
  | connect => exact (waitTask_append _ _ h2 i hw hcl).elim
  | recv h m hh =>
    cases m with
    | badJson s => exact (waitTask_unchanged _ h2 i hw hcl).elim
    | nonDict s => exact (waitTask_disconnect σ h h2 i hh hw hcl).elim
    | env ty text data mime =>
      exfalso
      simp only [recvMessage] at hcl
      split at hcl
      · split at hcl
        · exact waitTask_unchanged _ h2 i hw hcl
        · rename_i hb
          rcases hB : σ.bufKey with _ | b
          · rw [hB] at hcl
            exact waitTask_disconnect σ h h2 i hh hw hcl
          · rw [hB] at hcl
            rw [enqueue_handlers] at hcl
            exact waitTask_unchanged _ h2 i hw hcl
      · split at hcl
        · split at hcl
          · exact waitTask_unchanged _ h2 i hw hcl
          · exact waitTask_set_ne_closed _ h h2 i _ (by intro hh2; cases hh2) hw hcl
        · split at hcl
          · split at hcl
            · exact waitTask_unchanged _ h2 i hw hcl
            · exact waitTask_set_ne_closed _ h h2 i _ (by intro hh2; cases hh2) hw hcl
          · exact waitTask_unchanged _ h2 i hw hcl
  | disconnect h hh => exact (waitTask_disconnect σ h h2 i hh hw hcl).elim
  | waitTaskDone hp ip hh hwd =>
    by_cases he : hp = h2
    · subst he
      rw [hh] at hw
      cases hw
      exact hwd
    · exfalso
      have : (setH σ hp HSt.closed).handlers.getD h2 .closed = σ.handlers.getD h2 .closed :=
        getD_set_other _ _ _ _ _ he
      rw [this] at hcl
      exact waitTask_unchanged _ h2 i hw hcl
  | firstRun ip hwp =>
    exfalso
    rw [firstRun_handlers] at hcl
    exact waitTask_unchanged _ h2 i hw hcl
  | oracleDone ip s r hwp =>
    exfalso
    rw [oracleDone_handlers] at hcl
    exact waitTask_unchanged _ h2 i hw hcl
  | sendDone ip s fb hwp =>
    exfalso
    rw [sendDone_handlers] at hcl
    exact waitTask_unchanged _ h2 i hw hcl
  | cancelDeliver ip hc hnd => exact (waitTask_unchanged _ h2 i hw hcl).elim
  | ptOracleDone hp t r hh =>
    exfalso
    unfold ptOracleDoneResult at hcl
    split at hcl
    · exact waitTask_set_ne_closed _ hp h2 i _ (by intro hh2; cases hh2) hw hcl
    · exact waitTask_set_ne_closed _ hp h2 i _ (by intro hh2; cases hh2) hw hcl
  | ptSendFeedbackDone hp fb hh =>
    exact (waitTask_set_ne_closed _ hp h2 i _ (by intro hh2; cases hh2) hw hcl).elim
  | ptSendFailDone hp hh =>
    exact (waitTask_set_ne_closed _ hp h2 i _ (by intro hh2; cases hh2) hw hcl).elim
  | audioTranscribeDone hp prim data r hh =>
    exfalso
    unfold audioTranscribeDoneResult at hcl
    split at hcl
    · split at hcl
      · exact waitTask_set_ne_closed _ hp h2 i _ (by intro hh2; cases hh2) hw hcl
      · exact waitTask_set_ne_closed _ hp h2 i _ (by intro hh2; cases hh2) hw hcl
    · exact waitTask_set_ne_closed _ hp h2 i _ (by intro hh2; cases hh2) hw hcl
  | audioSendHeardDone hp t hh =>
    exact (waitTask_set_ne_closed _ hp h2 i _ (by intro hh2; cases hh2) hw hcl).elim
  | audioSendUnavailDone hp hh =>
    exact (waitTask_set_ne_closed _ hp h2 i _ (by intro hh2; cases hh2) hw hcl).elim
  | audioAnalyzeDone hp t r hh =>
    exfalso
    unfold audioAnalyzeDoneResult at hcl
    split at hcl
    · exact waitTask_set_ne_closed _ hp h2 i _ (by intro hh2; cases hh2) hw hcl
    · exact waitTask_set_ne_closed _ hp h2 i _ (by intro hh2; cases hh2) hw hcl
  | audioSendFeedbackDone hp fb hh =>
    exact (waitTask_set_ne_closed _ hp h2 i _ (by intro hh2; cases hh2) hw hcl).elim

/-- C6, counterexample: with two endpoints connected for the same session
key and a sentence enqueued, the disconnect of one endpoint leaves the
other connected (`connsKey = some 1`) yet purges the transcript buffer, the
queue entry and the task entry and cancels the in-flight worker — the
claim says this teardown happens exactly when the last endpoint disconnects
and that an earlier disconnect leaves buffer, queue and worker unchanged. -/
theorem c6_partial_disconnect_purges_cex :
    Steps Sys.init c6State3
    ∧ c6State2.connsKey = some 2
    ∧ c6State2.queueKey = some [lit "hello world"]
    ∧ c6State2.taskRef = some 0
    ∧ c6State3.connsKey = some 1
    ∧ c6State3.queueKey = none
    ∧ c6State3.bufKey = none
    ∧ c6State3.taskRef = none
    ∧ (c6State3.workers.getD 0 dW).cancelled = true := by
  refine ⟨?_, by decide, by decide, by decide, by decide, by decide, by decide,
    by decide, by decide⟩
  have h1 : Steps Sys.init c6State1 :=
    Relation.ReflTransGen.tail
      (Relation.ReflTransGen.single (Step.connect Sys.init))
      (Step.connect (connectResult Sys.init))
  have h2 : Steps Sys.init c6State2 :=
    Relation.ReflTransGen.tail h1
      (Step.recv c6State1 0 (mkTranscript (lit "hello world")) (by decide))
  exact Relation.ReflTransGen.tail h2 (Step.disconnect c6State2 1 (by decide))

/-- C6, amended: the `finally` teardown runs on *every* endpoint disconnect
for the session key, not only the last one: it always removes the buffer,
queue and task entries; a registered not-done worker is cancelled and the
departing handler suspends awaiting it, reaching `closed` only once the
worker is done; only the connection-set entry is treated incrementally —
the endpoint is discarded and the set entry is deleted exactly when it
becomes empty. -/
theorem c6_unconditional_teardown :
    (∀ σ h, (disconnectResult σ h).bufKey = none
      ∧ (disconnectResult σ h).queueKey = none
      ∧ (disconnectResult σ h).taskRef = none)
    ∧ (∀ σ h i, σ.taskRef = some i → (σ.workers.getD i dW).st ≠ .done →
        i < σ.workers.length → h < σ.handlers.length →
        ((disconnectResult σ h).workers.getD i dW).cancelled = true
        ∧ (disconnectResult σ h).handlers.getD h .closed = .waitTask i)
    ∧ (∀ σ h n, σ.connsKey = some n → 2 ≤ n →
        (disconnectResult σ h).connsKey = some (n - 1))
    ∧ (∀ σ h, σ.connsKey = some 1 → (disconnectResult σ h).connsKey = none)
    ∧ (∀ σ σ2 h2 i, Step σ σ2 → σ.handlers.getD h2 .closed = .waitTask i →
        σ2.handlers.getD h2 .closed = .closed → (σ.workers.getD i dW).st = .done) := by
  refine ⟨?_, ?_, ?_, ?_, ?_⟩
  · intro σ h
    cases hT : σ.taskRef with
    | none =>
      simp only [disconnectResult, hT]
      exact ⟨by trivial, by trivial, by trivial⟩
    | some i =>
      simp only [disconnectResult, hT]
      split
      · exact ⟨by trivial, by trivial, by trivial⟩
      · exact ⟨by trivial, by trivial, by trivial⟩
  · intro σ h i hT hnd hilen hhlen
    simp only [disconnectResult, hT, if_neg hnd]
    constructor
    · rw [getD_set_self _ _ _ _ hilen]
    · rw [getD_set_self _ _ _ _ hhlen]
  · intro σ h n hc h2n
    cases hT : σ.taskRef with
    | none =>
      simp only [disconnectResult, hT, dropConn, hc]
      rw [if_neg (by omega)]
    | some i =>
      simp only [disconnectResult, hT]
      split
      · simp only [dropConn, hc]
        rw [if_neg (by omega)]
      · simp only [dropConn, hc]
        rw [if_neg (by omega)]
  · intro σ h hc
    cases hT : σ.taskRef with
    | none =>
      simp only [disconnectResult, hT, dropConn, hc]
      rw [if_pos (by omega)]
    | some i =>
      simp only [disconnectResult, hT]
      split
      · simp only [dropConn, hc]
        rw [if_pos (by omega)]
      · simp only [dropConn, hc]
        rw [if_pos (by omega)]
  · intro σ σ2 h2 i hs hw hcl
    exact waitTask_closes_only_done σ σ2 hs h2 i hw hcl

theorem c6_unconditional_teardown_witness :
    (disconnectResult c6State2 1).queueKey = none
    ∧ ((disconnectResult c6State2 1).workers.getD 0 dW).cancelled = true
    ∧ (disconnectResult c6State2 1).connsKey = some 1 :=
  ⟨(c6_unconditional_teardown.1 c6State2 1).2.1,
    (c6_unconditional_teardown.2.1 c6State2 1 0 (by decide) (by decide)
      (by decide) (by decide)).1,
    c6_unconditional_teardown.2.2.1 c6State2 1 2 (by decide) (by decide)⟩

/-- C7, counterexample: the claim covers every malformed envelope (invalid
structure), but only JSON *decode* failures are swallowed. The text `42`
decodes to a JSON value that is not an object; `msg.get` then raises an
uncaught `AttributeError`, the receive loop exits and the `finally`
teardown runs — the connection is closed and session state purged, not
silently discarded with state unchanged. -/
theorem c7_nondict_closes_cex :
    Steps Sys.init (connectResult Sys.init)
    ∧ recvMessage (connectResult Sys.init) 0 (.badJson (lit "not json")) = connectResult Sys.init
    ∧ recvMessage (connectResult Sys.init) 0 (.nonDict (lit "42")) ≠ connectResult Sys.init
    ∧ (recvMessage (connectResult Sys.init) 0 (.nonDict (lit "42"))).handlers.getD 0 .closed
        = .closed
    ∧ (recvMessage (connectResult Sys.init) 0 (.nonDict (lit "42"))).bufKey = none :=
  ⟨Relation.ReflTransGen.single (Step.connect Sys.init), rfl, by decide, by decide, by decide⟩

/-- C7, amended: an inbound frame that fails JSON decoding is silently
discarded — the session state is entirely unchanged, no reply is produced,
the connection stays open and the receive loop continues; an envelope with
an unrecognized `type` is likewise ignored; but a frame that decodes to a
non-object JSON value raises out of the loop and triggers the full
disconnect teardown (the connection is closed). -/
theorem c7_decode_failure_discarded :
    (∀ σ h s, recvMessage σ h (.badJson s) = σ)
    ∧ (∀ σ h text data mime, recvMessage σ h (.env (lit "ping") text data mime) = σ)
    ∧ (∀ σ h s, recvMessage σ h (.nonDict s) = disconnectResult σ h) :=
  ⟨fun _ _ _ => rfl, fun _ _ _ _ _ => rfl, fun _ _ _ => rfl⟩
